import Mathlib

/-! Verification of the zlob path-matching engine.

A shallow embedding of the zlob glob/path-filter engine (public interface
`src/include/zlob.h`, behaviour pinned by `src/test/test_c_api.c`), together
with proofs of the specification claims about it.  The engine implementation
itself is not shipped in this repository snapshot, so the matcher, walker and
result-buffer operations below are modelled from the specification, faithful
to its wording; the C API test file fixes the concrete behaviour wherever it
speaks.

Strings are modelled as `List Char` (the engine treats paths as byte
sequences; all inputs of interest are ASCII, so one `Char` stands for one
byte).  The result structure `zlob_t` is modelled with the pointer array
`zlo_pathv` as a `List (Option String)`: a `some` entry is a (borrowed or
owned) string pointer, a `none` entry is a NULL pointer (leading `DOOFFS`
reservations and the trailing terminator).
-/

namespace Zlob

/-! Flag and status constants, from `src/include/zlob.h` -/

def ZLOB_ERR : Nat := 1
def ZLOB_MARK : Nat := 2
def ZLOB_NOSORT : Nat := 4
def ZLOB_DOOFFS : Nat := 8
def ZLOB_NOCHECK : Nat := 16
def ZLOB_APPEND : Nat := 32
def ZLOB_NOESCAPE : Nat := 64
def ZLOB_PERIOD : Nat := 128
def ZLOB_MAGCHAR : Nat := 256
def ZLOB_ALTDIRFUNC : Nat := 512
def ZLOB_BRACE : Nat := 1024
def ZLOB_NOMAGIC : Nat := 2048
def ZLOB_TILDE : Nat := 4096
def ZLOB_ONLYDIR : Nat := 8192
def ZLOB_TILDE_CHECK : Nat := 16384
def ZLOB_GITIGNORE : Nat := 16777216
def ZLOB_DOUBLESTAR_RECURSIVE : Nat := 33554432
def ZLOB_EXTGLOB : Nat := 67108864

def ZLOB_NOSPACE : Nat := 1
def ZLOB_ABORTED : Nat := 2
def ZLOB_NOMATCH : Nat := 3

/-- Test one flag bit of a flag word. -/
def hasFlag (flags f : Nat) : Bool := flags &&& f != 0

/-! Matcher: one glob segment against one path component

Modelled from the spec §4.4: `*` matches any run of bytes not containing
`/`, `?` one byte (not `/`), `[...]` one byte by class rules (never `/`,
leading `!` or `^` negates, `a-z` ranges, `]` literal when first,
unterminated `[` literal), `\X` is literal `X` unless `ZLOB_NOESCAPE`. -/

/-- A compiled token of a glob segment. -/
inductive Tok where
  | lit (c : Char)
  | one
  | star
  | cls (neg : Bool) (items : List (Char × Char))
deriving DecidableEq

/-- Modelled from the spec: character-class body parser.  Consumes the bytes
after a `[` (and after the optional negation byte); returns the class items
(inclusive ranges, a single byte `c` standing as `(c, c)`) and the rest of
the pattern after the closing `]`, or `none` when the class is unterminated.
`]` is literal when it appears first, `a-b` is an inclusive range, a `-`
just before the closing `]` is literal, `\x` is the literal byte `x` unless
`noesc`. -/
def parseClassItems (noesc : Bool) :
    Bool → List Char → List (Char × Char) → Option (List (Char × Char) × List Char)
  | _, [], _ => none
  | first, ']' :: rest, acc =>
      if first then parseClassItems noesc false rest (acc ++ [(']', ']')])
      else some (acc, rest)
  | _, '\\' :: c :: rest, acc =>
      if noesc then parseClassItems noesc false ('\\' :: c :: rest).tail (acc ++ [('\\', '\\')])
      else parseClassItems noesc false rest (acc ++ [(c, c)])
  | _, a :: '-' :: b :: rest, acc =>
      if b = ']' then some (acc ++ [(a, a), ('-', '-')], rest)
      else parseClassItems noesc false rest (acc ++ [(a, b)])
  | _, a :: rest, acc => parseClassItems noesc false rest (acc ++ [(a, a)])

/-- Modelled from the spec: parse a full `[...]` class: optional leading `!`
or `^` negation, then items.  Input is the pattern after the `[`. -/
def parseClass (noesc : Bool) (rest : List Char) :
    Option (Bool × List (Char × Char) × List Char) :=
  match rest with
  | '!' :: r => (parseClassItems noesc true r []).map (fun pr => (true, pr.1, pr.2))
  | '^' :: r => (parseClassItems noesc true r []).map (fun pr => (true, pr.1, pr.2))
  | r => (parseClassItems noesc true r []).map (fun pr => (false, pr.1, pr.2))

/-- Does a byte fall in one of the class ranges? -/
def inClass (items : List (Char × Char)) (c : Char) : Bool :=
  items.any (fun pr => pr.1 ≤ c && c ≤ pr.2)

/-- Modelled from the spec: fuelled segment tokenizer.  Each step consumes at
least one pattern byte, so `fuel = length + 1` can never be exhausted (the
spec itself mandates a depth limit for adversarial patterns, §9).  A stray
trailing `\` and an unterminated `[` are taken literally (§7). -/
def tokenizeF (noesc : Bool) : Nat → List Char → List Tok
  | 0, p => p.map Tok.lit
  | _ + 1, [] => []
  | f + 1, '\\' :: rest =>
      if noesc then Tok.lit '\\' :: tokenizeF noesc f rest
      else match rest with
        | [] => [Tok.lit '\\']
        | c :: rest2 => Tok.lit c :: tokenizeF noesc f rest2
  | f + 1, '*' :: rest => Tok.star :: tokenizeF noesc f rest
  | f + 1, '?' :: rest => Tok.one :: tokenizeF noesc f rest
  | f + 1, '[' :: rest =>
      (match parseClass noesc rest with
       | some (neg, items, rest2) => Tok.cls neg items :: tokenizeF noesc f rest2
       | none => Tok.lit '[' :: tokenizeF noesc f rest)
  | f + 1, c :: rest => Tok.lit c :: tokenizeF noesc f rest

/-- Tokenize a glob segment. -/
def tokenize (noesc : Bool) (p : List Char) : List Tok :=
  tokenizeF noesc (p.length + 1) p

/-- All suffixes of a name reachable from the start by dropping a run of
bytes that contains no `/` (the runs a `*` may consume). -/
def noSlashTails : List Char → List (List Char)
  | [] => [[]]
  | c :: cs => (c :: cs) :: (if c = '/' then [] else noSlashTails cs)

/-- Modelled from the spec: the token matcher.  Decides whether a tokenized
segment matches a candidate name in full; `*` tries every `/`-free suffix. -/
def matchToks : List Tok → List Char → Bool
  | [], n => n.isEmpty
  | Tok.lit c :: ts, n =>
      (match n with
       | [] => false
       | d :: ds => c == d && matchToks ts ds)
  | Tok.one :: ts, n =>
      (match n with
       | [] => false
       | d :: ds => d != '/' && matchToks ts ds)
  | Tok.cls neg items :: ts, n =>
      (match n with
       | [] => false
       | d :: ds => d != '/' && (inClass items d != neg) && matchToks ts ds)
  | Tok.star :: ts, n => (noSlashTails n).any (fun t => matchToks ts t)

/-- Can this pattern segment match a leading `.` explicitly?  True exactly
when the segment starts with a literal `.` (a plain `.`, or an escaped `\.`
when escapes are active). -/
def startsLiteralDot (noesc : Bool) (p : List Char) : Bool :=
  match p with
  | '.' :: _ => true
  | '\\' :: '.' :: _ => !noesc
  | _ => false

/-- Modelled from the spec: match one glob segment against one path
component.  Hidden-file rule (§4.4): unless the period flag is set, a name
with a leading `.` is matched only by a segment whose corresponding position
is a literal `.`; wildcards never consume that dot. -/
def matchSegment (periodF noesc : Bool) (p n : List Char) : Bool :=
  if !periodF && n.head? == some '.' && !startsLiteralDot noesc p then false
  else matchToks (tokenize noesc p) n

/-! Compiler: pattern → segment list; path → component list -/

/-- A compiled pattern segment (spec §3): `**` stands alone as a recursive
segment; everything else is matched by the segment matcher (a purely literal
segment is just the special case without metacharacters). -/
inductive Seg where
  | dstar
  | glob (chars : List Char)
deriving DecidableEq

/-- Prepend a byte onto the first piece of a split. -/
def consH (c : Char) : List (List Char) → List (List Char)
  | [] => [[c]]
  | s :: ss => (c :: s) :: ss

/-- Modelled from the spec §4.3: split a pattern on unescaped `/` into
segments, preserving an empty leading segment for absolute patterns. -/
def splitSegs (noesc : Bool) : List Char → List (List Char)
  | [] => [[]]
  | '/' :: rest => [] :: splitSegs noesc rest
  | '\\' :: c :: rest =>
      if noesc then consH '\\' (splitSegs noesc (c :: rest))
      else consH '\\' (consH c (splitSegs noesc rest))
  | c :: rest => consH c (splitSegs noesc rest)

/-- Split a path on `/` into components. -/
def splitOnSlash : List Char → List (List Char)
  | [] => [[]]
  | '/' :: rest => [] :: splitOnSlash rest
  | c :: rest => consH c (splitOnSlash rest)

/-- Tag one textual segment: the token `**` stands alone as the recursive
segment (spec §3); anything else is an ordinary segment. -/
def toSeg (s : List Char) : Seg :=
  if s = ['*', '*'] then Seg.dstar else Seg.glob s

/-- Compile a (brace-expanded) pattern into its segment list. -/
def compile (noesc : Bool) (p : List Char) : List Seg :=
  (splitSegs noesc p).map toSeg

/-- Modelled from the spec §4.5 (in-memory mode, step 3): pure list-vs-list
match of the compiled segment list against the component list.  A recursive
segment consumes zero or more leading components (`a/**/b` matches `a/b`,
`a/x/b`, `a/x/y/b`, …). -/
def matchSegs (periodF noesc : Bool) : List Seg → List (List Char) → Bool
  | [], comps => comps.isEmpty
  | Seg.dstar :: ps, comps => comps.tails.any (fun cs => matchSegs periodF noesc ps cs)
  | Seg.glob _ :: _, [] => false
  | Seg.glob g :: ps, c :: cs =>
      matchSegment periodF noesc g c && matchSegs periodF noesc ps cs

/-- Match a whole pattern against a whole path (both as byte lists). -/
def matchPath (periodF noesc : Bool) (pat path : List Char) : Bool :=
  matchSegs periodF noesc (compile noesc pat) (splitOnSlash path)

/-! Preprocessor: brace expansion (spec §4.1)

`a{b,c{d,e}}f ⇒ abf, acdf, acef`; matching `{`/`}` with nesting, top-level
commas separate alternatives, unbalanced or comma-less braces are literal,
`\{ \, \}` are literal under standard escape rules. -/

/-- Modelled from the spec: scan for the `}` closing the brace we are inside
(depth-tracked for nesting).  Returns the body up to the closer and the
suffix after it, or `none` when unbalanced. -/
def findClose (noesc : Bool) : Nat → List Char → Option (List Char × List Char)
  | _, [] => none
  | d, '\\' :: c :: rest =>
      if noesc then (findClose noesc d (c :: rest)).map (fun pr => ('\\' :: pr.1, pr.2))
      else (findClose noesc d rest).map (fun pr => ('\\' :: c :: pr.1, pr.2))
  | d, '{' :: rest => (findClose noesc (d + 1) rest).map (fun pr => ('{' :: pr.1, pr.2))
  | d, '}' :: rest =>
      if d = 0 then some ([], rest)
      else (findClose noesc (d - 1) rest).map (fun pr => ('}' :: pr.1, pr.2))
  | d, c :: rest => (findClose noesc d rest).map (fun pr => (c :: pr.1, pr.2))

/-- Modelled from the spec: split a brace body on its top-level commas
(commas inside nested braces belong to the inner group). -/
def splitTopComma (noesc : Bool) : Nat → List Char → List (List Char)
  | _, [] => [[]]
  | d, '\\' :: c :: rest =>
      if noesc then consH '\\' (splitTopComma noesc d (c :: rest))
      else consH '\\' (consH c (splitTopComma noesc d rest))
  | d, '{' :: rest => consH '{' (splitTopComma noesc (d + 1) rest)
  | d, '}' :: rest => consH '}' (splitTopComma noesc (d - 1) rest)
  | d, ',' :: rest =>
      if d = 0 then [] :: splitTopComma noesc d rest
      else consH ',' (splitTopComma noesc d rest)
  | d, c :: rest => consH c (splitTopComma noesc d rest)

/-- Modelled from the spec: find the first expandable brace group: the first
unescaped `{` that is balanced and whose body has at least one top-level
comma.  Returns `(prefix, body, suffix)`.  A `{` that is unbalanced or has a
comma-less body stays literal and the scan continues past it. -/
def findBrace (noesc : Bool) : List Char → Option (List Char × List Char × List Char)
  | [] => none
  | '\\' :: c :: rest =>
      if noesc then
        (findBrace noesc (c :: rest)).map (fun t => ('\\' :: t.1, t.2.1, t.2.2))
      else
        (findBrace noesc rest).map (fun t => ('\\' :: c :: t.1, t.2.1, t.2.2))
  | '{' :: rest =>
      (match findClose noesc 0 rest with
       | some (body, suf) =>
           if 2 ≤ (splitTopComma noesc 0 body).length then some ([], body, suf)
           else (findBrace noesc rest).map (fun t => ('{' :: t.1, t.2.1, t.2.2))
       | none => (findBrace noesc rest).map (fun t => ('{' :: t.1, t.2.1, t.2.2)))
  | c :: rest => (findBrace noesc rest).map (fun t => (c :: t.1, t.2.1, t.2.2))

/-- Modelled from the spec: fuelled cross-product brace expansion.  Every
expansion step removes one matched `{`/`}` pair from the pattern it recurses
on, so `fuel = length` steps can never be exhausted (the spec itself mandates
a depth limit for adversarial nesting, §9). -/
def expandBracesF (noesc : Bool) : Nat → List Char → List (List Char)
  | 0, p => [p]
  | fuel + 1, p =>
      match findBrace noesc p with
      | none => [p]
      | some (pre, body, suf) =>
          (splitTopComma noesc 0 body).flatMap
            (fun alt => expandBracesF noesc fuel (pre ++ alt ++ suf))

/-- Deduplicate, keeping the first occurrence of each element. -/
def dedupKeepFirst {α : Type} [DecidableEq α] : List α → List α → List α
  | _, [] => []
  | seen, x :: xs =>
      if x ∈ seen then dedupKeepFirst seen xs else x :: dedupKeepFirst (x :: seen) xs

/-- Deduplicate a list, preserving first occurrences. -/
def dedupF {α : Type} [DecidableEq α] (l : List α) : List α := dedupKeepFirst [] l

/-- Brace-expand a pattern into its ordered, deduplicated sub-pattern list
(spec §4.1). -/
def expandBraces (noesc : Bool) (p : List Char) : List (List Char) :=
  dedupF (expandBracesF noesc p.length p)

/-! Classifier (spec §4.2) -/

/-- Modelled from the spec: single-pass scan reporting whether the pattern
contains any unescaped metacharacter: `*`, `?`, `[`; also `{` when braces
are enabled; also the extended-group openers when extglob is enabled. -/
def hasMagic (braceF extF noesc : Bool) : List Char → Bool
  | [] => false
  | '\\' :: c :: rest =>
      if noesc then hasMagic braceF extF noesc (c :: rest)
      else hasMagic braceF extF noesc rest
  | c :: rest =>
      if c == '*' || c == '?' || c == '[' then true
      else if braceF && c == '{' then true
      else if extF && (c == '+' || c == '@' || c == '!') && rest.head? == some '(' then true
      else hasMagic braceF extF noesc rest

/-- Classifier applied under a flag word. -/
def patternHasMagic (flags : Nat) (p : List Char) : Bool :=
  hasMagic (hasFlag flags ZLOB_BRACE) (hasFlag flags ZLOB_EXTGLOB)
    (hasFlag flags ZLOB_NOESCAPE) p

/-! Result buffer (`zlob_t`, spec §4.6) -/

/-- The caller-visible result structure `zlob_t` of `zlob.h`.  `zlo_pathv`
models the pointer array: `some s` is a string pointer, `none` a NULL entry
(the `DOOFFS` leading reservations and the trailing terminator).  The
`ALTDIRFUNC` callback triple is outside the modelled fragment. -/
structure ZlobT where
  zlo_pathc : Nat
  zlo_pathv : List (Option String)
  zlo_offs : Nat
  zlo_pathlen : List Nat
  zlo_flags : Nat
deriving DecidableEq

/-- The zero-initialized / reset state of a `zlob_t`. -/
def emptyZlob : ZlobT :=
  { zlo_pathc := 0, zlo_pathv := [], zlo_offs := 0, zlo_pathlen := [], zlo_flags := 0 }

/-- Modelled from the spec §4.6: populate a result buffer from the matched
strings: `DOOFFS` leading NULL reservations, the match pointers, a trailing
NULL terminator not counted in `zlo_pathc`, and the parallel length array. -/
def zlobBuild (ms : List String) (flagsOut offs : Nat) : ZlobT :=
  { zlo_pathc := ms.length
  , zlo_pathv :=
      List.replicate (if hasFlag flagsOut ZLOB_DOOFFS then offs else 0) none
        ++ ms.map some ++ [none]
  , zlo_offs := if hasFlag flagsOut ZLOB_DOOFFS then offs else 0
  , zlo_pathlen := ms.map String.length
  , zlo_flags := flagsOut }

/-- Modelled from the spec §4.5/§7: turn the matched list into a status and
a populated buffer.  Zero matches return no-match unless the no-check
fallback (or the no-magic fallback on a metacharacter-free pattern) applies,
in which case the original pattern is the single result with success status.
The output flag word carries the `MAGCHAR` observer bit. -/
def finishCall (pattern : String) (flags offs : Nat) (ms : List String) :
    Nat × ZlobT :=
  if ms.isEmpty then
    if hasFlag flags ZLOB_NOCHECK
        || (hasFlag flags ZLOB_NOMAGIC && !patternHasMagic flags pattern.toList) then
      (0, zlobBuild [pattern]
            (flags ||| if patternHasMagic flags pattern.toList then ZLOB_MAGCHAR else 0)
            offs)
    else (ZLOB_NOMATCH, emptyZlob)
  else
    (0, zlobBuild ms
          (flags ||| if patternHasMagic flags pattern.toList then ZLOB_MAGCHAR else 0)
          offs)

/-! In-memory path-list filtering (spec §4.5, in-memory mode) -/

/-- A pattern prefix of `./` is equivalent to empty (spec §4.5 step 1). -/
def stripDotSlash (p : List Char) : List Char :=
  match p with
  | '.' :: '/' :: rest => rest
  | _ => p

/-- The sub-patterns a call actually matches with: the `./` prefix stripped,
then brace expansion when `ZLOB_BRACE` is set. -/
def bracePats (flags : Nat) (pat : List Char) : List (List Char) :=
  if hasFlag flags ZLOB_BRACE then
    expandBraces (hasFlag flags ZLOB_NOESCAPE) (stripDotSlash pat)
  else [stripDotSlash pat]

/-- Modelled from the spec: the in-memory filter core.  For each sub-pattern
in alternative order, keep the input paths (the caller's original strings,
borrowed) that match; concatenate and deduplicate by emitted path. -/
def filterMatches (flags : Nat) (pat : List Char) (paths : List String) : List String :=
  dedupF ((bracePats flags pat).flatMap (fun sp =>
    paths.filter (fun s =>
      matchPath (hasFlag flags ZLOB_PERIOD) (hasFlag flags ZLOB_NOESCAPE) sp s.toList)))

/-- Modelled from the spec: `zlob_match_paths` of `zlob.h` — filter a path
list by a pattern, zero-copy, no filesystem access.  The extra `offs`
argument models the caller's `zlo_offs` field read under `ZLOB_DOOFFS`;
`ZLOB_APPEND` is outside the modelled fragment. -/
def zlob_match_paths (pattern : String) (paths : List String) (flags offs : Nat) :
    Nat × ZlobT :=
  finishCall pattern flags offs (filterMatches flags pattern.toList paths)

/-! Base-relative filtering (spec §4.5 step 1) -/

/-- Base-path match is byte-exact with tolerance for exactly one trailing
`/` on the supplied base. -/
def normBase (b : List Char) : List Char :=
  if b.getLast? = some '/' then b.dropLast else b

/-- Modelled from the spec: require the input to begin with the base plus
`/`; strip the base prefix plus one separator, else reject. -/
def stripBase (nb : List Char) (path : List Char) : Option (List Char) :=
  if path.take nb.length = nb ∧ path.get? nb.length = some '/' then
    some (path.drop (nb.length + 1))
  else none

/-- Modelled from the spec: the base-relative in-memory filter core.  An
input path participates only when it begins with the base plus `/`; the
stripped remainder is matched; the emitted result is the caller's original
(full) string, borrowed. -/
def filterMatchesAt (flags : Nat) (base pat : List Char) (paths : List String) :
    List String :=
  dedupF ((bracePats flags pat).flatMap (fun sp =>
    paths.filter (fun s =>
      match stripBase (normBase base) s.toList with
      | some rel =>
          matchSegs (hasFlag flags ZLOB_PERIOD) (hasFlag flags ZLOB_NOESCAPE)
            (compile (hasFlag flags ZLOB_NOESCAPE) sp) (splitOnSlash rel)
      | none => false)))

/-- Modelled from the spec: `zlob_match_paths_at` of `zlob.h` — base-relative
zero-copy path filtering.  Returns `ZLOB_ABORTED` without populating any
buffer when the base path is not absolute. -/
def zlob_match_paths_at (base pattern : String) (paths : List String)
    (flags offs : Nat) : Nat × ZlobT :=
  if base.toList.head? = some '/' then
    finishCall pattern flags offs (filterMatchesAt flags base.toList pattern.toList paths)
  else (ZLOB_ABORTED, emptyZlob)

/-- Modelled from the spec: `zlob_match_paths_at_slice` of `zlob.h`.  The
slice form differs from the C-string form only in how string bytes and
lengths cross the FFI boundary; over the byte-sequence model the two compute
the same result. -/
def zlob_match_paths_at_slice (base pattern : String) (paths : List String)
    (flags offs : Nat) : Nat × ZlobT :=
  zlob_match_paths_at base pattern paths flags offs

/-- Modelled from the spec: `zlob_at` of `zlob.h` — filesystem globbing
relative to an absolute base directory.  The host filesystem is abstracted
as the list of existing absolute pathnames; emitted matches are the
base-relative names, copied into buffer-owned strings; entry ordering is
abstracted.  The base-absoluteness guard precedes everything: a relative
base returns `ZLOB_ABORTED` without opening any buffer. -/
def zlob_at (fs : List String) (base pattern : String) (flags offs : Nat) :
    Nat × ZlobT :=
  if base.toList.head? = some '/' then
    finishCall pattern flags offs
      (dedupF ((bracePats flags pattern.toList).flatMap (fun sp =>
        ((fs.filterMap (fun s => stripBase (normBase base.toList) s.toList)).filter
          (fun rel =>
            matchSegs (hasFlag flags ZLOB_PERIOD) (hasFlag flags ZLOB_NOESCAPE)
              (compile (hasFlag flags ZLOB_NOESCAPE) sp) (splitOnSlash rel))).map
          (fun rel => String.mk rel))))
  else (ZLOB_ABORTED, emptyZlob)

/-- Modelled from the header contract of `zlobfree` (`zlob.h`): release
whatever the buffer holds (owned strings or only the borrowed-mode arrays)
and reset every field of the `zlob_t` to its initial zero state. -/
def zlobfree (_z : ZlobT) : ZlobT :=
  { zlo_pathc := 0, zlo_pathv := [], zlo_offs := 0, zlo_pathlen := [], zlo_flags := 0 }

end Zlob

namespace Zlob

/-! Helper lemmas about the result pipeline -/

theorem mem_dedupKeepFirst {α : Type} [DecidableEq α] {x : α} :
    ∀ (seen l : List α), x ∈ dedupKeepFirst seen l → x ∈ l := by
  intro seen l
  induction l generalizing seen with
  | nil => intro h; exact absurd h (by simp [dedupKeepFirst])
  | cons a as ih =>
      simp only [dedupKeepFirst]
      split
      · intro h; exact List.mem_cons_of_mem _ (ih _ h)
      · intro h
        rcases List.mem_cons.mp h with h | h
        · exact h ▸ List.mem_cons_self _ _
        · exact List.mem_cons_of_mem _ (ih _ h)

theorem mem_dedupF {α : Type} [DecidableEq α] {x : α} {l : List α}
    (h : x ∈ dedupF l) : x ∈ l :=
  mem_dedupKeepFirst _ _ h

theorem zlobBuild_pathv_mem {s : String} {ms : List String} {fo offs : Nat}
    (h : some s ∈ (zlobBuild ms fo offs).zlo_pathv) : s ∈ ms := by
  unfold zlobBuild at h
  simp only [List.mem_append, List.mem_replicate, List.mem_map,
    List.mem_singleton] at h
  rcases h with (h | ⟨t, ht, he⟩) | h
  · exact absurd h.2 (by simp)
  · exact (Option.some.inj he) ▸ ht
  · exact absurd h (by simp)

theorem zlobBuild_pathv_eq (ms : List String) (fo offs : Nat) :
    (zlobBuild ms fo offs).zlo_pathv
      = List.replicate (if hasFlag fo ZLOB_DOOFFS then offs else 0) none
          ++ (ms.map some ++ [none]) := by
  simp [zlobBuild, List.append_assoc]

theorem zlobBuild_entry (ms : List String) (fo offs i : Nat) (h : i < ms.length) :
    (zlobBuild ms fo offs).zlo_pathv.get? ((zlobBuild ms fo offs).zlo_offs + i)
        = some (some (ms.get ⟨i, h⟩))
    ∧ (zlobBuild ms fo offs).zlo_pathlen.get? i = some (ms.get ⟨i, h⟩).length := by
  constructor
  · rw [zlobBuild_pathv_eq,
      show (zlobBuild ms fo offs).zlo_offs
        = (if hasFlag fo ZLOB_DOOFFS then offs else 0) from rfl,
      List.get?_append_right (by simp), List.length_replicate,
      Nat.add_sub_cancel_left, List.get?_append (by simpa using h), List.get?_map,
      List.get?_eq_get h, Option.map_some']
  · show (ms.map String.length).get? i = _
    rw [List.get?_map, List.get?_eq_get h, Option.map_some']

theorem zlobBuild_terminator (ms : List String) (fo offs : Nat) :
    (zlobBuild ms fo offs).zlo_pathv.get?
        ((zlobBuild ms fo offs).zlo_offs + (zlobBuild ms fo offs).zlo_pathc)
      = some none
    ∧ (zlobBuild ms fo offs).zlo_pathv.length
        = (zlobBuild ms fo offs).zlo_offs + (zlobBuild ms fo offs).zlo_pathc + 1 := by
  constructor
  · rw [zlobBuild_pathv_eq,
      show (zlobBuild ms fo offs).zlo_offs
        = (if hasFlag fo ZLOB_DOOFFS then offs else 0) from rfl,
      show (zlobBuild ms fo offs).zlo_pathc = ms.length from rfl,
      List.get?_append_right (by simp), List.length_replicate,
      Nat.add_sub_cancel_left,
      show ms.length = (ms.map some).length from (List.length_map _ _).symm,
      List.get?_concat_length]
  · rw [zlobBuild_pathv_eq,
      show (zlobBuild ms fo offs).zlo_offs
        = (if hasFlag fo ZLOB_DOOFFS then offs else 0) from rfl,
      show (zlobBuild ms fo offs).zlo_pathc = ms.length from rfl]
    simp [Nat.add_assoc]

theorem finishCall_cases (pattern : String) (flags offs : Nat) (ms : List String) :
    (finishCall pattern flags offs ms = (ZLOB_NOMATCH, emptyZlob)
        ∧ (hasFlag flags ZLOB_NOCHECK
            || (hasFlag flags ZLOB_NOMAGIC
                && !patternHasMagic flags pattern.toList)) = false)
    ∨ ∃ l, (l = ms
          ∨ l = [pattern]
            ∧ (hasFlag flags ZLOB_NOCHECK
                || (hasFlag flags ZLOB_NOMAGIC
                    && !patternHasMagic flags pattern.toList)) = true)
        ∧ finishCall pattern flags offs ms
            = (0, zlobBuild l
                (flags ||| if patternHasMagic flags pattern.toList then ZLOB_MAGCHAR else 0)
                offs) := by
  unfold finishCall
  split
  · split
    · next hc => exact Or.inr ⟨[pattern], Or.inr ⟨rfl, hc⟩, rfl⟩
    · next hc => exact Or.inl ⟨rfl, by simpa using hc⟩
  · exact Or.inr ⟨ms, Or.inl rfl, rfl⟩

theorem mem_filterMatches {flags : Nat} {pat : List Char} {paths : List String}
    {s : String} (h : s ∈ filterMatches flags pat paths) : s ∈ paths := by
  unfold filterMatches at h
  rcases List.mem_flatMap.mp (mem_dedupF h) with ⟨sp, _, hm⟩
  exact (List.mem_filter.mp hm).1

theorem mem_filterMatchesAt {flags : Nat} {base pat : List Char} {paths : List String}
    {s : String} (h : s ∈ filterMatchesAt flags base pat paths) :
    s ∈ paths ∧ stripBase (normBase base) s.toList ≠ none := by
  unfold filterMatchesAt at h
  rcases List.mem_flatMap.mp (mem_dedupF h) with ⟨sp, _, hm⟩
  rcases List.mem_filter.mp hm with ⟨hp, hpred⟩
  refine ⟨hp, fun hnone => ?_⟩
  rw [hnone] at hpred
  exact absurd hpred (by simp)

end Zlob
namespace Zlob

/-! Claim theorems -/

/-- C1: filtering the path list `["src/main.c", "src/test/unit.c",
"lib/utils.c", "docs/readme.md"]` with pattern `**/*.c` and no flags at all
succeeds with exactly the three `.c` paths, in input order: the `**` segment
matches zero or more intermediate path components in the in-memory filter
even though `ZLOB_DOUBLESTAR_RECURSIVE` is not passed. -/
theorem c1_doublestar_filter_without_flag :
    zlob_match_paths "**/*.c"
        ["src/main.c", "src/test/unit.c", "lib/utils.c", "docs/readme.md"] 0 0
      = (0, { zlo_pathc := 3
            , zlo_pathv := [some "src/main.c", some "src/test/unit.c",
                            some "lib/utils.c", none]
            , zlo_offs := 0
            , zlo_pathlen := [10, 15, 11]
            , zlo_flags := ZLOB_MAGCHAR }) := by decide

/-- The lengths-parallel-to-paths contract of a call result: on success,
entry `i` of the match area of `zlo_pathv` is a string whose length is
`zlo_pathlen[i]`. -/
def lengthsParallel (r : Nat × ZlobT) : Prop :=
  r.1 = 0 → ∀ i, i < r.2.zlo_pathc →
    ∃ s, r.2.zlo_pathv.get? (r.2.zlo_offs + i) = some (some s)
      ∧ r.2.zlo_pathlen.get? i = some s.length

theorem finishCall_lengthsParallel (pattern : String) (flags offs : Nat)
    (ms : List String) : lengthsParallel (finishCall pattern flags offs ms) := by
  intro h0 i hi
  rcases finishCall_cases pattern flags offs ms with ⟨h1, _⟩ | ⟨l, _, h2⟩
  · rw [h1] at h0; exact absurd h0 (by decide)
  · rw [h2] at hi ⊢
    exact ⟨l.get ⟨i, hi⟩, zlobBuild_entry l _ offs i hi⟩

/-- C3: after every successful call (all modelled entrypoints), for every
`i < zlo_pathc` the parallel length array satisfies `zlo_pathlen[i] =` the
length in bytes of the `i`-th match stored in `zlo_pathv` (the match area
starts after the `zlo_offs` leading NULL reservations). -/
theorem c3_pathlen_parallel (pattern base : String) (paths fs : List String)
    (flags offs : Nat) :
    lengthsParallel (zlob_match_paths pattern paths flags offs)
    ∧ lengthsParallel (zlob_match_paths_at base pattern paths flags offs)
    ∧ lengthsParallel (zlob_match_paths_at_slice base pattern paths flags offs)
    ∧ lengthsParallel (zlob_at fs base pattern flags offs) := by
  have hat : lengthsParallel (zlob_match_paths_at base pattern paths flags offs) := by
    unfold zlob_match_paths_at
    split
    · exact finishCall_lengthsParallel _ _ _ _
    · intro h0; exact absurd h0 (by decide)
  refine ⟨finishCall_lengthsParallel _ _ _ _, hat, hat, ?_⟩
  unfold zlob_at
  split
  · exact finishCall_lengthsParallel _ _ _ _
  · intro h0; exact absurd h0 (by decide)

/-- Witness for C3: the recursive-filter call of the C API test succeeds and
entry 1 is `src/test/unit.c` with recorded length 15. -/
theorem c3_pathlen_parallel_witness :
    ∃ s, (zlob_match_paths "**/*.c"
        ["src/main.c", "src/test/unit.c", "lib/utils.c", "docs/readme.md"]
        0 0).2.zlo_pathv.get? (0 + 1) = some (some s)
      ∧ (zlob_match_paths "**/*.c"
        ["src/main.c", "src/test/unit.c", "lib/utils.c", "docs/readme.md"]
        0 0).2.zlo_pathlen.get? 1 = some s.length :=
  (c3_pathlen_parallel "**/*.c" "/" ["src/main.c", "src/test/unit.c",
      "lib/utils.c", "docs/readme.md"] [] 0 0).1 (by decide) 1 (by decide)

/-- The null-termination contract of a call result: on success the pointer
array has exactly one trailing NULL entry past the last match, and that
entry is not counted in `zlo_pathc`. -/
def nullTerminated (r : Nat × ZlobT) : Prop :=
  r.1 = 0 → r.2.zlo_pathv.get? (r.2.zlo_offs + r.2.zlo_pathc) = some none
    ∧ r.2.zlo_pathv.length = r.2.zlo_offs + r.2.zlo_pathc + 1

theorem finishCall_nullTerminated (pattern : String) (flags offs : Nat)
    (ms : List String) : nullTerminated (finishCall pattern flags offs ms) := by
  intro h0
  rcases finishCall_cases pattern flags offs ms with ⟨h1, _⟩ | ⟨l, _, h2⟩
  · rw [h1] at h0; exact absurd h0 (by decide)
  · rw [h2]; exact zlobBuild_terminator l _ offs

/-- C9: after every successful call (all modelled entrypoints), the pointer
array `zlo_pathv` carries a trailing NULL entry immediately past the last
match — at index `zlo_offs + zlo_pathc`, i.e. the match count plus the
leading offset reservations — and that trailing NULL is not counted in the
public count `zlo_pathc` (the array length is `zlo_offs + zlo_pathc + 1`). -/
theorem c9_null_terminated (pattern base : String) (paths fs : List String)
    (flags offs : Nat) :
    nullTerminated (zlob_match_paths pattern paths flags offs)
    ∧ nullTerminated (zlob_match_paths_at base pattern paths flags offs)
    ∧ nullTerminated (zlob_match_paths_at_slice base pattern paths flags offs)
    ∧ nullTerminated (zlob_at fs base pattern flags offs) := by
  have hat : nullTerminated (zlob_match_paths_at base pattern paths flags offs) := by
    unfold zlob_match_paths_at
    split
    · exact finishCall_nullTerminated _ _ _ _
    · intro h0; exact absurd h0 (by decide)
  refine ⟨finishCall_nullTerminated _ _ _ _, hat, hat, ?_⟩
  unfold zlob_at
  split
  · exact finishCall_nullTerminated _ _ _ _
  · intro h0; exact absurd h0 (by decide)

/-- Witness for C9: the basic `*.c` filter of the C API test succeeds with
three matches and its pointer array is `NULL`-terminated at index 3, the
array holding 4 entries. -/
theorem c9_null_terminated_witness :
    (zlob_match_paths "*.c" ["short.c", "medium_name.c", "very_long_filename.c"]
        0 0).2.zlo_pathv.get?
        ((zlob_match_paths "*.c" ["short.c", "medium_name.c", "very_long_filename.c"]
            0 0).2.zlo_offs
          + (zlob_match_paths "*.c" ["short.c", "medium_name.c", "very_long_filename.c"]
              0 0).2.zlo_pathc) = some none
    ∧ (zlob_match_paths "*.c" ["short.c", "medium_name.c", "very_long_filename.c"]
        0 0).2.zlo_pathv.length
      = (zlob_match_paths "*.c" ["short.c", "medium_name.c", "very_long_filename.c"]
          0 0).2.zlo_offs
        + (zlob_match_paths "*.c" ["short.c", "medium_name.c", "very_long_filename.c"]
            0 0).2.zlo_pathc + 1 :=
  (c9_null_terminated "*.c" "/" ["short.c", "medium_name.c", "very_long_filename.c"]
      [] 0 0).1 (by decide)

/-- C8: every base-relative entrypoint (`zlob_at`, `zlob_match_paths_at`,
`zlob_match_paths_at_slice`), given a base path that does not start with
`/`, returns `ZLOB_ABORTED` and leaves the result in the valid empty state,
without populating any buffer. -/
theorem c8_relative_base_aborts (fs paths : List String) (base pattern : String)
    (flags offs : Nat) (h : base.toList.head? ≠ some '/') :
    zlob_match_paths_at base pattern paths flags offs = (ZLOB_ABORTED, emptyZlob)
    ∧ zlob_match_paths_at_slice base pattern paths flags offs
        = (ZLOB_ABORTED, emptyZlob)
    ∧ zlob_at fs base pattern flags offs = (ZLOB_ABORTED, emptyZlob) := by
  have hat : zlob_match_paths_at base pattern paths flags offs
      = (ZLOB_ABORTED, emptyZlob) := by
    unfold zlob_match_paths_at
    rw [if_neg h]
  exact ⟨hat, hat, by unfold zlob_at; rw [if_neg h]⟩

/-- Witness for C8: a relative base `src` aborts all three entrypoints. -/
theorem c8_relative_base_aborts_witness :
    zlob_match_paths_at "src" "*.c" ["src/main.c"] 0 0 = (ZLOB_ABORTED, emptyZlob)
    ∧ zlob_match_paths_at_slice "src" "*.c" ["src/main.c"] 0 0
        = (ZLOB_ABORTED, emptyZlob)
    ∧ zlob_at ["src/main.c"] "src" "*.c" 0 0 = (ZLOB_ABORTED, emptyZlob) :=
  c8_relative_base_aborts ["src/main.c"] ["src/main.c"] "src" "*.c" 0 0 (by decide)

/-- C10: `zlobfree` resets the `zlob_t` to its initial zero state, so a
second `zlobfree` immediately after a previous one (no zeroing by the caller
in between) is a no-op, as is `zlobfree` on an uninitialized structure in
the empty state (NULL `zlo_pathv`). -/
theorem c10_zlobfree_reset (z : ZlobT) :
    zlobfree z = emptyZlob
    ∧ zlobfree (zlobfree z) = zlobfree z
    ∧ zlobfree emptyZlob = emptyZlob :=
  ⟨rfl, rfl, rfl⟩

end Zlob
namespace Zlob

/-- C2 counterexample: with `ZLOB_NOCHECK`, a zero-match filter call
succeeds and stores the pattern string `*.xyz` in `zlo_pathv`, which is not
one of the caller's input path strings — so "every result pointer is
pointer-identical to one of the caller's original input path strings" fails
as stated. -/
theorem c2_counterexample_nocheck_pattern :
    (zlob_match_paths "*.xyz" ["main.c"] ZLOB_NOCHECK 0).1 = 0
    ∧ some "*.xyz" ∈ (zlob_match_paths "*.xyz" ["main.c"] ZLOB_NOCHECK 0).2.zlo_pathv
    ∧ "*.xyz" ∉ ["main.c"] := by decide

/-- C2 (amended): in path-list filtering every string stored in `zlo_pathv`
is one of the caller's original input path strings — unchanged, zero-copy —
except that under the no-check/no-magic fallback the single stored string is
the caller's pattern; when neither `ZLOB_NOCHECK` nor `ZLOB_NOMAGIC` is
passed, every stored string is one of the input paths. -/
theorem c2_zero_copy_amended :
    (∀ pattern paths flags offs s,
        some s ∈ (zlob_match_paths pattern paths flags offs).2.zlo_pathv →
        s ∈ paths ∨ s = pattern)
    ∧ (∀ base pattern paths flags offs s,
        some s ∈ (zlob_match_paths_at base pattern paths flags offs).2.zlo_pathv →
        s ∈ paths ∨ s = pattern)
    ∧ (∀ pattern paths flags offs s,
        hasFlag flags ZLOB_NOCHECK = false → hasFlag flags ZLOB_NOMAGIC = false →
        some s ∈ (zlob_match_paths pattern paths flags offs).2.zlo_pathv →
        s ∈ paths) := by
  have hmain : ∀ pattern paths flags offs s,
      some s ∈ (zlob_match_paths pattern paths flags offs).2.zlo_pathv →
      s ∈ paths ∨ s = pattern := by
    intro pattern paths flags offs s hmem
    unfold zlob_match_paths at hmem
    rcases finishCall_cases pattern flags offs
        (filterMatches flags pattern.toList paths) with ⟨h1, _⟩ | ⟨l, hl, h2⟩
    · rw [h1] at hmem; exact absurd hmem (by simp [emptyZlob])
    · rw [h2] at hmem
      have hsl := zlobBuild_pathv_mem hmem
      rcases hl with rfl | ⟨rfl, _⟩
      · exact Or.inl (mem_filterMatches hsl)
      · exact Or.inr (List.mem_singleton.mp hsl)
  refine ⟨hmain, ?_, ?_⟩
  · intro base pattern paths flags offs s hmem
    unfold zlob_match_paths_at at hmem
    by_cases hb : base.toList.head? = some '/'
    · rw [if_pos hb] at hmem
      rcases finishCall_cases pattern flags offs
          (filterMatchesAt flags base.toList pattern.toList paths)
        with ⟨h1, _⟩ | ⟨l, hl, h2⟩
      · rw [h1] at hmem; exact absurd hmem (by simp [emptyZlob])
      · rw [h2] at hmem
        have hsl := zlobBuild_pathv_mem hmem
        rcases hl with rfl | ⟨rfl, _⟩
        · exact Or.inl (mem_filterMatchesAt hsl).1
        · exact Or.inr (List.mem_singleton.mp hsl)
    · rw [if_neg hb] at hmem; exact absurd hmem (by simp [emptyZlob])
  · intro pattern paths flags offs s hnc hnm hmem
    unfold zlob_match_paths at hmem
    rcases finishCall_cases pattern flags offs
        (filterMatches flags pattern.toList paths) with ⟨h1, _⟩ | ⟨l, hl, h2⟩
    · rw [h1] at hmem; exact absurd hmem (by simp [emptyZlob])
    · rw [h2] at hmem
      have hsl := zlobBuild_pathv_mem hmem
      rcases hl with rfl | ⟨rfl, hcond⟩
      · exact mem_filterMatches hsl
      · rw [hnc, hnm] at hcond; exact absurd hcond (by simp)

/-- Witness for C2: in the recursive-filter call of the C API test, the
stored entry `src/main.c` is one of the caller's input path strings. -/
theorem c2_zero_copy_amended_witness :
    "src/main.c" ∈ ["src/main.c", "src/test/unit.c", "lib/utils.c", "docs/readme.md"] :=
  (c2_zero_copy_amended.2.2 "**/*.c"
    ["src/main.c", "src/test/unit.c", "lib/utils.c", "docs/readme.md"] 0 0
    "src/main.c" (by decide) (by decide) (by decide))

end Zlob
namespace Zlob

/-- C4: a call producing zero matches returns `ZLOB_NOMATCH`, unless
`ZLOB_NOCHECK` is set (or `ZLOB_NOMAGIC` is set and the pattern has no
metacharacters), in which case it returns success with count 1 and the
original pattern as the single result.  Concretely, filtering
`["main.c", "test.h", "readme.md"]` with `*.xyz` and no flags yields
`ZLOB_NOMATCH`, and with `ZLOB_NOCHECK` yields count 1 with content
`*.xyz`. -/
theorem c4_nomatch_and_fallbacks :
    (zlob_match_paths "*.xyz" ["main.c", "test.h", "readme.md"] 0 0
        = (ZLOB_NOMATCH, emptyZlob))
    ∧ ((zlob_match_paths "*.xyz" ["main.c", "test.h", "readme.md"] ZLOB_NOCHECK 0).1 = 0
        ∧ (zlob_match_paths "*.xyz" ["main.c", "test.h", "readme.md"]
            ZLOB_NOCHECK 0).2.zlo_pathc = 1
        ∧ (zlob_match_paths "*.xyz" ["main.c", "test.h", "readme.md"]
            ZLOB_NOCHECK 0).2.zlo_pathv = [some "*.xyz", none])
    ∧ (∀ pattern paths flags offs,
        filterMatches flags pattern.toList paths = [] →
        ((hasFlag flags ZLOB_NOCHECK
            || (hasFlag flags ZLOB_NOMAGIC
                && !patternHasMagic flags pattern.toList)) = true →
          (zlob_match_paths pattern paths flags offs).1 = 0
          ∧ (zlob_match_paths pattern paths flags offs).2.zlo_pathc = 1
          ∧ some pattern ∈ (zlob_match_paths pattern paths flags offs).2.zlo_pathv)
        ∧ ((hasFlag flags ZLOB_NOCHECK
            || (hasFlag flags ZLOB_NOMAGIC
                && !patternHasMagic flags pattern.toList)) = false →
          zlob_match_paths pattern paths flags offs = (ZLOB_NOMATCH, emptyZlob))) := by
  refine ⟨by decide, ⟨by decide, by decide, by decide⟩, ?_⟩
  intro pattern paths flags offs hempty
  constructor
  · intro hcond
    have heq : zlob_match_paths pattern paths flags offs
        = (0, zlobBuild [pattern]
            (flags ||| if patternHasMagic flags pattern.toList then ZLOB_MAGCHAR else 0)
            offs) := by
      unfold zlob_match_paths finishCall
      rw [hempty, hcond]
      simp
    rw [heq]
    refine ⟨rfl, rfl, ?_⟩
    rw [show (zlobBuild [pattern]
        (flags ||| if patternHasMagic flags pattern.toList then ZLOB_MAGCHAR else 0)
        offs).zlo_pathv
      = List.replicate _ none ++ ([pattern].map some ++ [none])
      from zlobBuild_pathv_eq _ _ _]
    simp
  · intro hcond
    unfold zlob_match_paths finishCall
    rw [hempty, hcond]
    simp

/-- Witness for C4: the general zero-match clause applied to the concrete
no-check call of the C API test. -/
theorem c4_nomatch_and_fallbacks_witness :
    (zlob_match_paths "*.xyz" ["main.c", "test.h", "readme.md"] ZLOB_NOCHECK 0).1 = 0
    ∧ (zlob_match_paths "*.xyz" ["main.c", "test.h", "readme.md"]
        ZLOB_NOCHECK 0).2.zlo_pathc = 1
    ∧ some "*.xyz" ∈ (zlob_match_paths "*.xyz" ["main.c", "test.h", "readme.md"]
        ZLOB_NOCHECK 0).2.zlo_pathv :=
  ((c4_nomatch_and_fallbacks.2.2 "*.xyz" ["main.c", "test.h", "readme.md"]
      ZLOB_NOCHECK 0 (by decide)).1 (by decide))

end Zlob
namespace Zlob

/-- C5: with `ZLOB_BRACE`, a brace pattern's results are the concatenation
of each alternative's results in alternative order, deduplicated by emitted
path; concretely `{short,long}.c` against `["short.c", "long.c", "other.c"]`
returns exactly `short.c` and `long.c`. -/
theorem c5_brace_concat_dedup :
    ((zlob_match_paths "\x7bshort,long\x7d.c" ["short.c", "long.c", "other.c"]
        ZLOB_BRACE 0).1 = 0
      ∧ (zlob_match_paths "\x7bshort,long\x7d.c" ["short.c", "long.c", "other.c"]
          ZLOB_BRACE 0).2.zlo_pathv = [some "short.c", some "long.c", none])
    ∧ ∀ paths : List String,
        filterMatches ZLOB_BRACE ("\x7bshort,long\x7d.c".toList) paths
          = dedupF
              (paths.filter (fun s => matchPath false false ("short.c".toList) s.toList)
                ++ paths.filter (fun s => matchPath false false ("long.c".toList) s.toList)) := by
  refine ⟨⟨by decide, by decide⟩, ?_⟩
  intro paths
  unfold filterMatches
  rw [show bracePats ZLOB_BRACE ("\x7bshort,long\x7d.c".toList)
      = ["short.c".toList, "long.c".toList] from by decide]
  simp only [List.flatMap_cons, List.flatMap_nil, List.append_nil]
  rfl

/-- Function normBase absorbs exactly one trailing `/` added to a base that does
not already end in one. -/
theorem normBase_append_slash (base : List Char) (h : base.getLast? ≠ some '/') :
    normBase (base ++ ['/']) = normBase base := by
  unfold normBase
  rw [List.getLast?_concat, if_pos rfl, List.dropLast_concat, if_neg h]

/-- Stripping the `./` pattern prefix commutes with sub-pattern selection. -/
theorem bracePats_dotslash (flags : Nat) (P : List Char) (h : stripDotSlash P = P) :
    bracePats flags ('.' :: '/' :: P) = bracePats flags P := by
  unfold bracePats
  rw [show stripDotSlash ('.' :: '/' :: P) = P from rfl, h]

/-- C6: base-relative filtering (i) matches an input only if it begins with
the base plus `/` (after absorbing at most one trailing `/` on the supplied
base, byte-exact otherwise) so the base prefix plus one separator is
stripped before component matching; (ii) a base with one extra trailing `/`
selects the same matches; (iii) a leading `./` on the pattern is equivalent
to an empty prefix, yielding the same match set; and (iv) the concrete
base-relative calls of the C API test behave accordingly. -/
theorem c6_base_relative :
    (∀ flags base pat (paths : List String) s,
        s ∈ filterMatchesAt flags base pat paths →
        s ∈ paths ∧ stripBase (normBase base) s.toList ≠ none)
    ∧ (∀ flags base pat (paths : List String), base.getLast? ≠ some '/' →
        filterMatchesAt flags (base ++ ['/']) pat paths
          = filterMatchesAt flags base pat paths)
    ∧ (∀ flags base P (paths : List String), stripDotSlash P = P →
        filterMatchesAt flags base ('.' :: '/' :: P) paths
          = filterMatchesAt flags base P paths)
    ∧ ((zlob_match_paths_at "/home/user/project" "**/*.c"
          ["/home/user/project/src/main.c", "/home/user/project/src/test/unit.c",
           "/home/user/project/lib/utils.c", "/home/user/project/docs/readme.md"]
          0 0).1 = 0
        ∧ (zlob_match_paths_at "/home/user/project" "**/*.c"
            ["/home/user/project/src/main.c", "/home/user/project/src/test/unit.c",
             "/home/user/project/lib/utils.c", "/home/user/project/docs/readme.md"]
            0 0).2.zlo_pathv
          = [some "/home/user/project/src/main.c",
             some "/home/user/project/src/test/unit.c",
             some "/home/user/project/lib/utils.c", none]
        ∧ (zlob_match_paths_at "/opt/app/" "src/**/*.zig"
            ["/opt/app/src/main.zig", "/opt/app/src/utils/helpers.zig",
             "/opt/app/test/test_main.zig", "/opt/app/README.md"] 0 0).2.zlo_pathv
          = [some "/opt/app/src/main.zig", some "/opt/app/src/utils/helpers.zig", none]
        ∧ (zlob_match_paths_at "/home/user/project" "./**/*.c"
            ["/home/user/project/src/main.c", "/home/user/project/lib/utils.c"]
            0 0).2.zlo_pathv
          = [some "/home/user/project/src/main.c",
             some "/home/user/project/lib/utils.c", none]) := by
  refine ⟨?_, ?_, ?_, by decide, by decide, by decide, by decide⟩
  · intro flags base pat paths s h
    exact mem_filterMatchesAt h
  · intro flags base pat paths h
    unfold filterMatchesAt
    simp only [normBase_append_slash base h]
  · intro flags base P paths h
    unfold filterMatchesAt
    rw [bracePats_dotslash flags P h]

/-- Witness for C6: the `./`-prefix clause applied to the concrete pattern
`**/*.c` and the base-prefix clause applied to one matched path of the
concrete base-relative call. -/
theorem c6_base_relative_witness :
    (filterMatchesAt 0 ("/home/user/project".toList) ('.' :: '/' :: "**/*.c".toList)
        ["/home/user/project/src/main.c", "/home/user/project/lib/utils.c"]
      = filterMatchesAt 0 ("/home/user/project".toList) ("**/*.c".toList)
        ["/home/user/project/src/main.c", "/home/user/project/lib/utils.c"])
    ∧ ("/home/user/project/src/main.c"
          ∈ ["/home/user/project/src/main.c", "/home/user/project/lib/utils.c"]
        ∧ stripBase (normBase ("/home/user/project".toList))
            ("/home/user/project/src/main.c".toList) ≠ none) :=
  ⟨c6_base_relative.2.2.1 0 ("/home/user/project".toList) ("**/*.c".toList)
      ["/home/user/project/src/main.c", "/home/user/project/lib/utils.c"] (by decide),
    c6_base_relative.1 0 ("/home/user/project".toList) ("**/*.c".toList)
      ["/home/user/project/src/main.c", "/home/user/project/lib/utils.c"]
      "/home/user/project/src/main.c" (by decide)⟩

end Zlob
namespace Zlob

/-- A name without `/` can be fully consumed by a star: the empty suffix is
reachable. -/
theorem nil_mem_noSlashTails : ∀ (l : List Char), '/' ∉ l → [] ∈ noSlashTails l := by
  intro l
  induction l with
  | nil => intro _; simp [noSlashTails]
  | cons c cs ih =>
      intro h
      show [] ∈ (c :: cs) :: (if c = '/' then [] else noSlashTails cs)
      rw [if_neg (fun hc => h (by rw [hc]; exact List.mem_cons_self _ _))]
      exact List.mem_cons_of_mem _ (ih (fun hm => h (List.mem_cons_of_mem _ hm)))

/-- Without the period flag, the single-star pattern rejects any path whose
first byte is `.` (the leading component starts with a dot). -/
theorem star_not_match_dotted (noesc : Bool) (x : List Char)
    (hx : x.head? = some '.') : matchPath false noesc ['*'] x = false := by
  cases x with
  | nil => exact absurd hx (by simp)
  | cons c t =>
      have hc : c = '.' := by simpa using hx
      subst hc
      cases h : splitOnSlash t with
      | nil =>
          show matchSegs false noesc [Seg.glob ['*']] (consH '.' (splitOnSlash t)) = false
          rw [h]; rfl
      | cons u us =>
          show matchSegs false noesc [Seg.glob ['*']] (consH '.' (splitOnSlash t)) = false
          rw [h]; rfl

/-- C7: the hidden-file rule.  (a) Without `ZLOB_PERIOD`, a component whose
first byte is `.` is matched only when the pattern segment's corresponding
position is a literal `.`; (b) in particular a segment starting with `*`,
`?` or `[` never matches it; (c) with `ZLOB_PERIOD` set, `*` does match a
dot-leading component; (d) at whole-call level, pattern `*` never returns a
dot-leading name without the period flag; (e) the rule applies per path
component, not per full path: `*/*` rejects `a/.b` without the flag and
accepts it with the flag. -/
theorem c7_hidden_file_rule :
    (∀ (noesc : Bool) (p n : List Char), n.head? = some '.' →
        startsLiteralDot noesc p = false → matchSegment false noesc p n = false)
    ∧ (∀ (noesc : Bool) (p n : List Char) (c : Char), n.head? = some '.' →
        (c = '*' ∨ c = '?' ∨ c = '[') → matchSegment false noesc (c :: p) n = false)
    ∧ (∀ n : List Char, '/' ∉ n → matchSegment true false ['*'] ('.' :: n) = true)
    ∧ (∀ (paths : List String) (flags offs : Nat) (s : String),
        hasFlag flags ZLOB_PERIOD = false → s.toList.head? = some '.' →
        some s ∉ (zlob_match_paths "*" paths flags offs).2.zlo_pathv)
    ∧ ((zlob_match_paths "*/*" ["a/.b"] 0 0).1 = ZLOB_NOMATCH
        ∧ (zlob_match_paths "*/*" ["a/.b"] ZLOB_PERIOD 0).1 = 0
        ∧ (zlob_match_paths "*/*" ["a/.b"] ZLOB_PERIOD 0).2.zlo_pathv
            = [some "a/.b", none]) := by
  have ha : ∀ (noesc : Bool) (p n : List Char), n.head? = some '.' →
      startsLiteralDot noesc p = false → matchSegment false noesc p n = false := by
    intro noesc p n h1 h2
    unfold matchSegment
    rw [h1, h2]
    simp
  refine ⟨ha, ?_, ?_, ?_, by decide, by decide, by decide⟩
  · intro noesc p n c h1 h2
    refine ha noesc (c :: p) n h1 ?_
    rcases h2 with rfl | rfl | rfl <;> rfl
  · intro n hn
    show matchToks (tokenize false ['*']) ('.' :: n) = true
    rw [show tokenize false ['*'] = [Tok.star] from rfl]
    show (noSlashTails ('.' :: n)).any (fun t => matchToks [] t) = true
    rw [List.any_eq_true]
    refine ⟨[], ?_, rfl⟩
    show [] ∈ ('.' :: n) :: (if ('.' : Char) = '/' then [] else noSlashTails n)
    rw [if_neg (by decide)]
    exact List.mem_cons_of_mem _ (nil_mem_noSlashTails n hn)
  · intro paths flags offs s hp hdot hmem
    unfold zlob_match_paths at hmem
    rcases finishCall_cases "*" flags offs (filterMatches flags "*".toList paths)
      with ⟨h1, _⟩ | ⟨l, hl, h2⟩
    · rw [h1] at hmem; exact absurd hmem (by simp [emptyZlob])
    · rw [h2] at hmem
      have hsl := zlobBuild_pathv_mem hmem
      rcases hl with rfl | ⟨rfl, _⟩
      · unfold filterMatches at hsl
        rcases List.mem_flatMap.mp (mem_dedupF hsl) with ⟨sp, hsp, hm⟩
        have hsp1 : sp = ['*'] := by
          have hbp : ∀ b1 b2 : Bool, expandBraces b1 (stripDotSlash ("*".toList))
              = [['*']] ∧ [stripDotSlash ("*".toList)] = [['*']] := by decide
          unfold bracePats at hsp
          cases hbf : hasFlag flags ZLOB_BRACE with
          | false =>
              rw [if_neg (by simp [hbf]), (hbp true true).2] at hsp
              exact List.mem_singleton.mp hsp
          | true =>
              rw [if_pos (by simp [hbf]),
                (hbp (hasFlag flags ZLOB_NOESCAPE) true).1] at hsp
              exact List.mem_singleton.mp hsp
        subst hsp1
        have hpred := (List.mem_filter.mp hm).2
        simp only [hp] at hpred
        have hfalse := star_not_match_dotted (hasFlag flags ZLOB_NOESCAPE) s.data hdot
        simp [hfalse] at hpred
      · rw [List.mem_singleton] at hsl
        subst hsl
        exact absurd hdot (by decide)

/-- Witness for C7: the general clauses applied at concrete inputs — `?x`
does not match `.a` without the period flag, `*` matches `.config` with it,
and `*` never returns `.config` from a call without it. -/
theorem c7_hidden_file_rule_witness :
    matchSegment false false ['?', 'x'] ['.', 'a'] = false
    ∧ matchSegment true false ['*'] ('.' :: "config".toList) = true
    ∧ some ".config" ∉ (zlob_match_paths "*" [".config", "visible"] 0 0).2.zlo_pathv :=
  ⟨c7_hidden_file_rule.2.1 false ['x'] ['.', 'a'] '?' (by decide) (by decide),
    c7_hidden_file_rule.2.2.1 ("config".toList) (by decide),
    c7_hidden_file_rule.2.2.2.1 [".config", "visible"] 0 0 ".config" (by decide)
      (by decide)⟩

end Zlob
